import Mathlib

/-
Verification of the DataScrubber readership-normalization pipeline.

The Python sources (src/distribution/src/cleaning_rawdata.py and
src/distribution/src/cleaning_customer.py) are shallowly embedded below:
DataFrames become lists of records with string-valued fields, pandas
row-wise operations become list maps/filters, and Python exceptions are
modelled with Option (none = the operation raises).  External master
tables (pycountry's alpha-2 table, the country/city override tables, the
client and title masters) are passed in as explicit association lists.
-/

namespace DataScrubber

/-- Lowercase every character of a string, modelling Python str.lower. -/
def lowerStr (s : String) : String := String.mk (s.data.map Char.toLower)

/-- Uppercase every character of a string, modelling Python str.upper. -/
def upperStr (s : String) : String := String.mk (s.data.map Char.toUpper)

/-- Whether the first character list is an initial segment of the second. -/
def leadSeg : List Char → List Char → Bool
  | [], _ => true
  | _ :: _, [] => false
  | a :: as, b :: bs => a == b && leadSeg as bs

/-- Substring test on character lists, modelling the Python in operator on strings. -/
def hasSubList (needle : List Char) : List Char → Bool
  | [] => leadSeg needle []
  | b :: bs => leadSeg needle (b :: bs) || hasSubList needle bs

/-- Substring test on strings: needle occurs somewhere inside hay. -/
def hasSub (needle hay : String) : Bool := hasSubList needle.data hay.data

/-- Replace every slash by a dash, modelling str.replace of a slash by a dash. -/
def slashToDash (s : String) : String :=
  String.mk (s.data.map (fun c => if c = '/' then '-' else c))

/-- Remove every space character, modelling str.replace of a space by the empty string. -/
def stripSpaces (s : String) : String :=
  String.mk (s.data.filter (fun c => !(c == ' ')))

/-- Code-point lexicographic comparison of character lists, as Python compares strings. -/
def charListLe : List Char → List Char → Bool
  | [], _ => true
  | _ :: _, [] => false
  | a :: as, b :: bs => if a = b then charListLe as bs else decide (a < b)

/-- String comparison used by the descending Read-Date sort. -/
def strLeB (s t : String) : Bool := charListLe s.data t.data

/-- First-match lookup in an association list. -/
def lookupList (m : List (String × String)) (k : String) : Option String :=
  (m.find? (fun p => p.1 == k)).map Prod.snd

/-- Last-match lookup in an association list, modelling the dict built by
pandas set_index(...).to_dict() where a later duplicate key overwrites an
earlier one. -/
def lookupDict (m : List (String × String)) (k : String) : Option String :=
  (m.reverse.find? (fun p => p.1 == k)).map Prod.snd

/-- The canonical record shape produced by every publisher adapter
(cleaning_rawdata.py, process_columns column_order, lines 108-119). -/
structure Row where
  readDate : String
  postDate : String
  firmName : String
  userName : String
  email : String
  city : String
  country : String
  reportTitle : String
  platform : String
  transactionId : String
deriving DecidableEq

/-- Insert a row into a descending-by-Read-Date sorted list, before any row
with an equal key, so that the overall sort is stable. -/
def insertRow (a : Row) : List Row → List Row
  | [] => [a]
  | b :: bs => if strLeB b.readDate a.readDate then a :: b :: bs else b :: insertRow a bs

/-- Stable descending sort by Read Date, modelling
df.sort_values(by='Read Date', ascending=False) (cleaning_rawdata.py line 125). -/
def sortRows : List Row → List Row
  | [] => []
  | a :: as => insertRow a (sortRows as)

/-- Keep the first occurrence of each key, dropping later rows with an
already-seen key, modelling pandas drop_duplicates. -/
def dedupKeyAux {α κ : Type} [DecidableEq κ] (key : α → κ) (seen : List κ) : List α → List α
  | [] => []
  | a :: as =>
    if key a ∈ seen then dedupKeyAux key seen as
    else a :: dedupKeyAux key (key a :: seen) as

/-- pandas drop_duplicates over all columns: keep the first occurrence of each row value. -/
def drop_duplicates {α : Type} [DecidableEq α] (l : List α) : List α := dedupKeyAux id [] l

/-- The single placeholder token substituted for missing or undisclosed values. -/
def sentinel : String := "非公開"

/-- The raw non-informative marker values replaced by the sentinel
(cleaning_rawdata.py line 135). -/
def markerValues : List String :=
  ["***", "N/A - Free Content", "Restricted", "nan", "Unattributed", "Embargoed", "EMBARGOED", "Unknown"]

/-- Replace a marker value by the sentinel and leave any other value unchanged. -/
def replaceVal (s : String) : String := if s ∈ markerValues then sentinel else s

/-- Apply the marker replacement to every field of a row, modelling
df.replace([...], sentinel) which acts on every column. -/
def replaceRow (r : Row) : Row where
  readDate := replaceVal r.readDate
  postDate := replaceVal r.postDate
  firmName := replaceVal r.firmName
  userName := replaceVal r.userName
  email := replaceVal r.email
  city := replaceVal r.city
  country := replaceVal r.country
  reportTitle := replaceVal r.reportTitle
  platform := replaceVal r.platform
  transactionId := replaceVal r.transactionId

/-- process_columns (cleaning_rawdata.py lines 97-137): reorder to the
canonical column set, sort descending by Read Date, optionally drop rows
with an already-seen Transaction ID, then replace marker values by the
sentinel in every column. -/
def process_columns (removeDuplicates : Bool) (rows : List Row) : List Row :=
  let sorted := sortRows rows
  let deduped := if removeDuplicates then dedupKeyAux Row.transactionId [] sorted else sorted
  deduped.map replaceRow

/-- custom_mapping inside map_and_fillna_country (cleaning_rawdata.py lines
151-164): the sentinel passes through, otherwise the alpha-2 country table
is consulted (a failed lookup keeps the code) and then the configurable
override table is applied. -/
def custom_mapping (alpha2 customCountry : List (String × String)) (code : String) : String :=
  if code = sentinel then sentinel
  else
    let name := (lookupList alpha2 code).getD code
    (lookupList customCountry name).getD name

/-- The full per-value country canonicalization: custom_mapping followed by
uppercasing with the sentinel exempted (cleaning_rawdata.py lines 167-169). -/
def countryCanon (alpha2 customCountry : List (String × String)) (s : String) : String :=
  let n := custom_mapping alpha2 customCountry s
  if n = sentinel then n else upperStr n

/-- map_and_fillna_country (cleaning_rawdata.py lines 141-171). -/
def map_and_fillna_country (alpha2 customCountry : List (String × String)) (rows : List Row) : List Row :=
  rows.map (fun r => { r with country := countryCanon alpha2 customCountry r.country })

/-- The per-value city canonicalization: the alias table with missing keys
passing through, then uppercasing with the sentinel exempted
(cleaning_rawdata.py lines 186-188). -/
def cityCanon (customCity : List (String × String)) (s : String) : String :=
  let n := (lookupList customCity s).getD s
  if n = sentinel then n else upperStr n

/-- map_and_fillna_city (cleaning_rawdata.py lines 175-190). -/
def map_and_fillna_city (customCity : List (String × String)) (rows : List Row) : List Row :=
  rows.map (fun r => { r with city := cityCanon customCity r.city })

/-- The shared post-adapter canonicalization every adapter ends with:
map_and_fillna_city (map_and_fillna_country (process_columns ...)). -/
def canonicalize (alpha2 customCountry customCity : List (String × String))
    (removeDuplicates : Bool) (rows : List Row) : List Row :=
  map_and_fillna_city customCity
    (map_and_fillna_country alpha2 customCountry
      (process_columns removeDuplicates rows))

/-- The eight publisher adapters dispatched by preclean_data
(cleaning_rawdata.py lines 916-925). -/
inductive Publisher
  | p1 | p2 | p3 | p4 | p5 | p6 | p7 | p8
deriving DecidableEq

/-- Every publisher, in the dispatch-table order. -/
def allPublishers : List Publisher :=
  [Publisher.p1, Publisher.p2, Publisher.p3, Publisher.p4,
   Publisher.p5, Publisher.p6, Publisher.p7, Publisher.p8]

/-- The remove_duplicates argument each adapter passes to process_columns:
adapters 4, 6 and 7 call process_columns(df, remove_duplicates=False)
(cleaning_rawdata.py lines 461, 593 and 816); all others use the default True. -/
def removeDuplicatesPolicy : Publisher → Bool
  | Publisher.p4 => false
  | Publisher.p6 => false
  | Publisher.p7 => false
  | _ => true

/-- Split a character list at every space, keeping empty pieces, exactly
as Python str.split with an explicit space separator does. -/
def splitSpaces : List Char → List (List Char)
  | [] => [[]]
  | c :: rest =>
    if c = ' ' then [] :: splitSpaces rest
    else
      match splitSpaces rest with
      | [] => [[c]]
      | p :: pr => (c :: p) :: pr

/-- convert_date_example_publisher_1 (cleaning_rawdata.py lines 281-286):
the string must split on single spaces into exactly two parts (otherwise
the tuple unpacking raises) and its date part must have at least three
characters (otherwise indexing raises); when the third character is a
slash the day-first form is rearranged by slicing, and finally slashes
become dashes.  none models a raised exception. -/
def convert_date_example_publisher_1 (dateStr : String) : Option String :=
  match splitSpaces dateStr.data with
  | [date, _] =>
    match date.get? 2 with
    | none => none
    | some c =>
      let d :=
        if c = '/' then (date.drop 6) ++ ['/'] ++ ((date.drop 3).take 2) ++ ['/'] ++ (date.take 2)
        else date
      some (slashToDash (String.mk d))
  | _ => none

/-- convert_date_example_publisher_4 (cleaning_rawdata.py lines 454-456):
a bare str.replace of slashes by dashes; it is total and never raises. -/
def convert_date_example_publisher_4 (dateStr : String) : String := slashToDash dateStr

/-- The raw record shape adapter 4 consumes (cleaning_rawdata.py lines 431-436). -/
structure Raw4 where
  readDate : String
  firmName : String
  postDate : String
  reportTitle : String
deriving DecidableEq

/-- The disclosure marker filtered from Firm Name by adapters 1 to 6. -/
def ndMarker : String := "non-disclosed company name"

/-- clean_example_publisher_4 (cleaning_rawdata.py lines 420-463): keep the
four source columns, inject the constant Platform and sentinel columns,
filter rows whose lowercased Firm Name contains the disclosure marker,
convert dates, then canonicalize with deduplication disabled. -/
def clean_example_publisher_4 (alpha2 customCountry customCity : List (String × String))
    (rows : List Raw4) : List Row :=
  let kept := rows.filter (fun r => !(hasSub ndMarker (lowerStr r.firmName)))
  let assigned := kept.map (fun r =>
    { readDate := convert_date_example_publisher_4 r.readDate
      postDate := convert_date_example_publisher_4 r.postDate
      firmName := r.firmName
      userName := sentinel
      email := sentinel
      city := sentinel
      country := sentinel
      reportTitle := r.reportTitle
      platform := "example_publisher_4"
      transactionId := sentinel : Row })
  canonicalize alpha2 customCountry customCity false assigned

/-- One row of the client master (cleaning_customer.py usages of the
clients DataFrame: columns Client, Investor Type, Investor Style, City, Country). -/
structure ClientEntry where
  client : String
  investorType : String
  investorStyle : String
  city : String
  country : String
deriving DecidableEq

/-- get_client_info (cleaning_customer.py lines 83-106): the first client
whose uppercased name equals the uppercased firm name supplies Investor
Type and Investor Style with the known-client flag true; with no match the
sentinels and false are returned. -/
def get_client_info (firmName : String) (clients : List ClientEntry) : String × String × Bool :=
  match clients.find? (fun c => upperStr c.client == upperStr firmName) with
  | some c => (c.investorType, c.investorStyle, true)
  | none => (sentinel, sentinel, false)

/-- get_city_and_country (cleaning_customer.py lines 110-135): find the
first client whose name equals the row's Firm Name exactly (the comparison
is case-sensitive, unlike get_client_info); when found, a non-sentinel
master City overrides the row's City and a non-sentinel master Country
overrides the row's Country. -/
def get_city_and_country (row : Row) (clients : List ClientEntry) : Row :=
  match clients.find? (fun c => c.client == row.firmName) with
  | some c =>
    let row1 := if c.city = sentinel then row else { row with city := c.city }
    if c.country = sentinel then row1 else { row1 with country := c.country }
  | none => row

/-- One row of the report-title master (columns Title, Content, Post Date). -/
structure TitleEntry where
  title : String
  content : String
  postDate : String
deriving DecidableEq

/-- The primary match of add_shortened_title: the master Title is a
case-insensitive substring of the report title. -/
def titleMatch (reportTitle : String) (t : TitleEntry) : Bool :=
  hasSub (lowerStr t.title) (lowerStr reportTitle)

/-- The fallback match of add_shortened_title: the space-stripped,
lowercased master Content is a substring of the space-stripped, lowercased
report title. -/
def contentMatch (reportTitle : String) (t : TitleEntry) : Bool :=
  hasSub (lowerStr (stripSpaces t.content)) (lowerStr (stripSpaces reportTitle))

/-- add_shortened_title (cleaning_customer.py lines 139-164): scan the
title master in order for a Title substring match, then (only if that
whole scan fails) for a Content substring match, returning the matched
entry's Title; with no match at all the original report title is returned. -/
def add_shortened_title (reportTitle : String) (titles : List TitleEntry) : String :=
  match titles.find? (titleMatch reportTitle) with
  | some t => t.title
  | none =>
    match titles.find? (contentMatch reportTitle) with
    | some t => t.title
    | none => reportTitle

/-- A row of the customer-stage master_data at the point get_post_date and
dropna run (cleaning_customer.py main, lines 297-302).  Fields read from
the precleaned spreadsheet may be missing (none models a pandas NaN); the
Title column was just assigned by add_shortened_title so it is always
present, and In Client Master is a genuine boolean. -/
structure TRow where
  readDate : Option String
  postDate : Option String
  firmName : Option String
  userName : Option String
  email : Option String
  city : Option String
  country : Option String
  reportTitle : Option String
  platform : Option String
  transactionId : Option String
  investorType : Option String
  investorStyle : Option String
  inClientMaster : Bool
  title : String
deriving DecidableEq

/-- The Post-Date overwrite applied to one row by get_post_date: the
resolved Title is looked up in the Title-to-PostDate dictionary and the
result (possibly missing) replaces the row's Post Date. -/
def setPostDate (titles : List (String × String)) (r : TRow) : TRow :=
  { r with postDate := lookupDict titles r.title }

/-- get_post_date (cleaning_customer.py lines 168-188): overwrite every
row's Post Date with the dictionary lookup of its Title. -/
def get_post_date (titles : List (String × String)) (rows : List TRow) : List TRow :=
  rows.map (setPostDate titles)

/-- Whether a row has no missing value in any column, i.e. survives
DataFrame.dropna(). -/
def rowComplete (r : TRow) : Bool :=
  r.readDate.isSome && r.postDate.isSome && r.firmName.isSome && r.userName.isSome &&
  r.email.isSome && r.city.isSome && r.country.isSome && r.reportTitle.isSome &&
  r.platform.isSome && r.transactionId.isSome && r.investorType.isSome && r.investorStyle.isSome

/-- The Post-Date stage of cleaning_customer.py main (lines 301-302):
get_post_date followed by dropna, which removes every row carrying a
missing value in any column. -/
def post_date_stage (titles : List (String × String)) (rows : List TRow) : List TRow :=
  (get_post_date titles rows).filter rowComplete

/-- save_missing_clients (cleaning_customer.py lines 192-229), modelled on
ledger contents instead of files: the delta is the In-Client-Master-false
subset of the input; an empty delta leaves the ledger alone, otherwise the
delta is concatenated onto the existing ledger and exact duplicate rows
are dropped, keeping first occurrences. -/
def save_missing_clients (existing df : List TRow) : List TRow :=
  let newRows := df.filter (fun r => r.inClientMaster == false)
  if newRows.isEmpty then existing
  else drop_duplicates (existing ++ newRows)

/-- The raw record shape adapter 8 consumes (cleaning_rawdata.py lines 833-842). -/
structure Raw8 where
  recipient : String
  subject : String
  eventType : String
  eventId : String
  eventCreatedDate : String
  city : String
  country : String
  openDurationMs : String
deriving DecidableEq

/-- Decimal value of a digit list. -/
def digitsVal (ds : List Char) : Nat := ds.foldl (fun n c => n * 10 + (c.toNat - 48)) 0

/-- Split a character list at the first dot. -/
def splitAtDot : List Char → List Char × Option (List Char)
  | [] => ([], none)
  | c :: rest =>
    if c = '.' then ([], some rest)
    else
      let p := splitAtDot rest
      (c :: p.1, p.2)

/-- The digit lists of an integer part and a fractional part, when both
consist of digits and at least one digit is present; the denoted number is
the integer formed by all digits over ten to the fractional length. -/
def decimalParts (ip fp : List Char) : Option (Nat × Nat) :=
  if ip.isEmpty && fp.isEmpty then none
  else if (ip ++ fp).all Char.isDigit then some (digitsVal (ip ++ fp), fp.length)
  else none

/-- Model of Python float() on the duration strings: the outer none is a
raised ValueError, some none is the float NaN (arising from the literal
string nan that astype(str) leaves in empty cells; NaN compares false
against every number), and some (some (n, k)) is the exactly represented
decimal number n divided by ten to the k, with optional sign and
fractional part. -/
def pyFloat (s : String) : Option (Option (Int × Nat)) :=
  if s = "nan" || s = "NaN" then some none
  else
    let body : Bool × List Char :=
      match s.data with
      | '-' :: rest => (true, rest)
      | '+' :: rest => (false, rest)
      | ds => (false, ds)
    let parts := splitAtDot body.2
    match decimalParts parts.1 (parts.2.getD []) with
    | none => none
    | some v => some (some ((if body.1 then -(v.1 : Int) else (v.1 : Int)), v.2))

/-- The rational number denoted by a parsed decimal value. -/
def decimalRat (v : Int × Nat) : ℚ := (v.1 : ℚ) / (10 : ℚ) ^ v.2

/-- The opening filters of clean_example_publisher_8 (cleaning_rawdata.py
lines 846-850): keep only rows whose Event Type is OPEN, then cast their
Open duration (ms) column to float (none models the cast raising on a
non-numeric value) and keep only rows whose duration exceeds 3000
milliseconds; the comparison of n divided by ten to the k against 3000 is
performed on integers as n against 3000 times ten to the k. -/
def clean_example_publisher_8_filter (rows : List Raw8) : Option (List Raw8) :=
  let opens := rows.filter (fun r => r.eventType == "OPEN")
  if opens.all (fun r => (pyFloat r.openDurationMs).isSome) then
    some (opens.filter (fun r =>
      match pyFloat r.openDurationMs with
      | some (some v) => decide ((3000 * 10 ^ v.2 : Int) < v.1)
      | _ => false))
  else none

/-- One canonicalized value-mapping step: marker replacement on every
field, then country and city canonicalization; canonicalize with
deduplication disabled is the sort followed by a map of this function. -/
def canonRow (alpha2 customCountry customCity : List (String × String)) (r : Row) : Row :=
  { replaceRow r with
      country := countryCanon alpha2 customCountry (replaceVal r.country),
      city := cityCanon customCity (replaceVal r.city) }

/-- Descending sortedness by Read Date. -/
def sortedDesc (l : List Row) : Prop :=
  l.Pairwise (fun a b => strLeB b.readDate a.readDate = true)

/-- A raw row with two marker-valued Transaction IDs alongside it: the
concrete rows used to exercise canonicalization twice. -/
def exNanRow : Row :=
  { readDate := "2024-01-02", postDate := "2024-01-01", firmName := "A", userName := "u",
    email := "e", city := "非公開", country := "非公開", reportTitle := "T", platform := "p",
    transactionId := "nan" }

/-- A second row identical except for Read Date and a different marker Transaction ID. -/
def exStarRow : Row := { exNanRow with readDate := "2024-01-01", transactionId := "***" }

/-- A well-behaved row whose Country is an alpha-2 code and whose City is lowercase. -/
def exJpRow : Row :=
  { readDate := "2024-01-02", postDate := "2024-01-01", firmName := "Acme", userName := "u",
    email := "e", city := "tokyo", country := "JP", reportTitle := "T", platform := "p",
    transactionId := "1" }

/-- The title-to-post-date table of the Post-Date-stage examples. -/
def exTitles : List (String × String) := [("T", "2024-02-01")]

/-- A customer-stage row whose resolved Title is in the table but whose
Email cell is missing. -/
def exNoEmailRow : TRow :=
  { readDate := some "2024-01-01", postDate := some "x", firmName := some "Acme",
    userName := some "u", email := none, city := some "c", country := some "d",
    reportTitle := some "T full", platform := some "p", transactionId := some "1",
    investorType := some "it", investorStyle := some "is", inClientMaster := true, title := "T" }

/-- A fully populated customer-stage row whose resolved Title is in the table. -/
def exFullRow : TRow :=
  { readDate := some "2024-01-01", postDate := some "x", firmName := some "Acme",
    userName := some "u", email := some "e", city := some "c", country := some "d",
    reportTitle := some "T full", platform := some "p", transactionId := some "1",
    investorType := some "it", investorStyle := some "is", inClientMaster := true, title := "T" }

/-- A client-master entry whose name differs from the example row's Firm
Name only in letter case. -/
def exUpperClient : ClientEntry :=
  { client := "ACME CORP", investorType := "t", investorStyle := "s",
    city := "Tokyo", country := "Japan" }

/-- A client-master entry matching the example row's Firm Name exactly. -/
def exExactClient : ClientEntry :=
  { client := "Acme Corp", investorType := "t", investorStyle := "s",
    city := "Tokyo", country := "Japan" }

/-- A canonical row whose Firm Name is Acme Corp with its own location values. -/
def exAcmeRow : Row :=
  { readDate := "2024-01-01", postDate := "2024-01-01", firmName := "Acme Corp",
    userName := "u", email := "e", city := "Osaka", country := "X", reportTitle := "T",
    platform := "p", transactionId := "1" }

/-- A client-master entry for a firm other than Acme Corp. -/
def exOtherClient : ClientEntry :=
  { client := "Beta Capital", investorType := "t", investorStyle := "s",
    city := "London", country := "UK" }

/-- The two-entry title master of the order-preservation scenario. -/
def exShortEntry : TitleEntry := { title := "Q2 Results", content := "c1", postDate := "d1" }

/-- The longer, second-listed entry of the order-preservation scenario. -/
def exLongEntry : TitleEntry := { title := "Q2 Results Update", content := "c2", postDate := "d2" }

/-- An adapter-4 raw row for a disclosed firm. -/
def exDisclosedRaw : Raw4 :=
  { readDate := "2024/03/07", firmName := "Acme", postDate := "2024/03/01", reportTitle := "X" }

/-- The canonical row adapter 4 produces from the disclosed raw row. -/
def exDisclosedOut : Row :=
  { readDate := "2024-03-07", postDate := "2024-03-01", firmName := "Acme",
    userName := sentinel, email := sentinel, city := sentinel, country := sentinel,
    reportTitle := "X", platform := "example_publisher_4", transactionId := sentinel }

/-- A missing-client ledger row for the firm Acme. -/
def exAcmeMissing : TRow :=
  { readDate := some "d", postDate := some "d", firmName := some "Acme", userName := some "u",
    email := some "e", city := some "c", country := some "c", reportTitle := some "t",
    platform := some "p", transactionId := some "1", investorType := some "it",
    investorStyle := some "is", inClientMaster := false, title := "T" }

/-- A missing-client ledger row for the firm Beta. -/
def exBetaMissing : TRow := { exAcmeMissing with firmName := some "Beta" }

/-- A publisher-8 raw row: an OPEN event held open for 4500 milliseconds. -/
def exOpenLong : Raw8 :=
  { recipient := "a@b.com", subject := "S", eventType := "OPEN", eventId := "1",
    eventCreatedDate := "2024-03-07 10:00:00", city := "c", country := "d",
    openDurationMs := "4500" }

/-- A publisher-8 raw row: an OPEN event held open for only 1200 milliseconds. -/
def exOpenShort : Raw8 := { exOpenLong with eventId := "2", openDurationMs := "1200" }

/-- A publisher-8 raw row: a SENT event with a non-numeric duration cell. -/
def exSentRow : Raw8 := { exOpenLong with eventId := "3", eventType := "SENT", openDurationMs := "abc" }

section Lemmas

/-! Order lemmas for the lexicographic comparison used by the Read-Date sort. -/

theorem charListLe_total (x y : List Char) : charListLe x y = true ∨ charListLe y x = true := by
  induction x generalizing y with
  | nil => left; rfl
  | cons a as ih =>
    cases y with
    | nil => right; rfl
    | cons b bs =>
      by_cases hab : a = b
      · subst hab
        rcases ih bs with h | h
        · left; simpa [charListLe] using h
        · right; simpa [charListLe] using h
      · rcases lt_trichotomy a b with h | h | h
        · left; simp [charListLe, hab, h]
        · exact absurd h hab
        · right; simp [charListLe, Ne.symm hab, h, not_lt_of_gt h]

theorem charListLe_trans : ∀ {x y z : List Char},
    charListLe x y = true → charListLe y z = true → charListLe x z = true
  | [], _, _, _, _ => rfl
  | _ :: _, [], _, h, _ => by simp [charListLe] at h
  | _ :: _, _ :: _, [], _, h => by simp [charListLe] at h
  | a :: as, b :: bs, c :: cs, h1, h2 => by
    by_cases hab : a = b <;> by_cases hbc : b = c
    · subst hab; subst hbc
      rw [charListLe, if_pos rfl] at h1 h2 ⊢
      exact charListLe_trans h1 h2
    · subst hab
      rw [charListLe, if_pos rfl] at h1
      rw [charListLe, if_neg hbc] at h2 ⊢
      exact h2
    · subst hbc
      rw [charListLe, if_neg hab] at h1 ⊢
      exact h1
    · rw [charListLe, if_neg hab] at h1
      rw [charListLe, if_neg hbc] at h2
      have hac : a < c := lt_trans (of_decide_eq_true h1) (of_decide_eq_true h2)
      rw [charListLe, if_neg (ne_of_lt hac)]
      exact decide_eq_true hac

theorem strLeB_trans {x y z : String} (h1 : strLeB x y = true) (h2 : strLeB y z = true) :
    strLeB x z = true := charListLe_trans h1 h2

theorem strLeB_total (x y : String) : strLeB x y = true ∨ strLeB y x = true :=
  charListLe_total x.data y.data

/-! Lemmas about the stable descending insertion sort. -/

theorem mem_insertRow {a x : Row} : ∀ {l : List Row}, x ∈ insertRow a l ↔ x = a ∨ x ∈ l := by
  intro l
  induction l with
  | nil => simp [insertRow]
  | cons b bs ih =>
    by_cases h : strLeB b.readDate a.readDate
    · simp [insertRow, h, List.mem_cons]
    · simp [insertRow, h, List.mem_cons, ih]
      tauto

theorem mem_sortRows {x : Row} : ∀ {l : List Row}, x ∈ sortRows l ↔ x ∈ l := by
  intro l
  induction l with
  | nil => simp [sortRows]
  | cons a as ih => simp [sortRows, mem_insertRow, ih, List.mem_cons]

theorem length_insertRow (a : Row) : ∀ (l : List Row), (insertRow a l).length = l.length + 1 := by
  intro l
  induction l with
  | nil => rfl
  | cons b bs ih =>
    by_cases h : strLeB b.readDate a.readDate
    · simp [insertRow, h]
    · simp [insertRow, h, ih]

theorem length_sortRows : ∀ (l : List Row), (sortRows l).length = l.length := by
  intro l
  induction l with
  | nil => rfl
  | cons a as ih =>
    rw [sortRows, length_insertRow, ih]
    rfl

theorem sortedDesc_insertRow {a : Row} {l : List Row} (h : sortedDesc l) :
    sortedDesc (insertRow a l) := by
  induction l with
  | nil => simp [insertRow, sortedDesc]
  | cons b bs ih =>
    rw [sortedDesc, List.pairwise_cons] at h
    by_cases hba : strLeB b.readDate a.readDate = true
    · rw [insertRow, if_pos hba]
      refine List.Pairwise.cons ?_ (List.Pairwise.cons h.1 h.2)
      intro x hx
      rcases List.mem_cons.mp hx with rfl | hx
      · exact hba
      · exact strLeB_trans (h.1 x hx) hba
    · rw [insertRow, if_neg hba]
      refine List.Pairwise.cons ?_ (ih h.2)
      intro x hx
      rcases mem_insertRow.mp hx with rfl | hx
      · rcases strLeB_total x.readDate b.readDate with ht | ht
        · exact ht
        · exact absurd ht hba
      · exact h.1 x hx

theorem sortedDesc_sortRows : ∀ (l : List Row), sortedDesc (sortRows l)
  | [] => List.Pairwise.nil
  | _ :: as => sortedDesc_insertRow (sortedDesc_sortRows as)

theorem sortRows_eq_self : ∀ {l : List Row}, sortedDesc l → sortRows l = l
  | [], _ => rfl
  | a :: as, h => by
    rw [sortedDesc, List.pairwise_cons] at h
    rw [sortRows, sortRows_eq_self h.2]
    cases as with
    | nil => rfl
    | cons b bs => rw [insertRow, if_pos (h.1 b (List.mem_cons_self b bs))]

/-! Lemmas about keep-first deduplication. -/

theorem mem_of_mem_dedupKeyAux {α κ : Type} [DecidableEq κ] {key : α → κ} :
    ∀ {seen : List κ} {l : List α} {x : α}, x ∈ dedupKeyAux key seen l → x ∈ l := by
  intro seen l
  induction l generalizing seen with
  | nil => intro x h; simp [dedupKeyAux] at h
  | cons a as ih =>
    intro x h
    rw [dedupKeyAux] at h
    by_cases hk : key a ∈ seen
    · rw [if_pos hk] at h
      exact List.mem_cons_of_mem a (ih h)
    · rw [if_neg hk] at h
      rcases List.mem_cons.mp h with rfl | h
      · exact List.mem_cons_self _ _
      · exact List.mem_cons_of_mem a (ih h)

theorem dedupKeyAux_filter {α κ : Type} [DecidableEq κ] (key : α → κ) (k : κ) :
    ∀ (seen : List κ) (l : List α),
      (dedupKeyAux key seen l).filter (fun a => key a == k)
        = if k ∈ seen then [] else (l.find? (fun a => key a == k)).toList := by
  intro seen l
  induction l generalizing seen with
  | nil => simp [dedupKeyAux]
  | cons a as ih =>
    rw [dedupKeyAux]
    by_cases hk : key a ∈ seen
    · rw [if_pos hk, ih]
      by_cases hak : key a = k
      · subst hak
        rw [if_pos hk, if_pos hk]
      · rw [List.find?_cons_of_neg _ (by simpa using hak)]
    · rw [if_neg hk]
      by_cases hak : key a = k
      · subst hak
        rw [List.filter_cons_of_pos (by simp), ih, if_pos (List.mem_cons_self _ _),
          if_neg hk, List.find?_cons_of_pos _ (by simp)]
        rfl
      · rw [List.filter_cons_of_neg (by simpa using hak), ih,
          List.find?_cons_of_neg _ (by simpa using hak)]
        by_cases hks : k ∈ seen
        · rw [if_pos hks, if_pos (List.mem_cons_of_mem _ hks)]
        · rw [if_neg hks, if_neg (by
            intro hmem
            rcases List.mem_cons.mp hmem with h | h
            · exact hak h.symm
            · exact hks h)]

theorem mem_dedupId {α : Type} [DecidableEq α] :
    ∀ {seen l : List α} {x : α}, x ∈ dedupKeyAux id seen l ↔ (x ∉ seen ∧ x ∈ l) := by
  intro seen l
  induction l generalizing seen with
  | nil => intro x; simp [dedupKeyAux]
  | cons a as ih =>
    intro x
    rw [dedupKeyAux]
    by_cases hk : (id a : α) ∈ seen
    · rw [if_pos hk, ih]
      constructor
      · rintro ⟨h1, h2⟩
        exact ⟨h1, List.mem_cons_of_mem a h2⟩
      · rintro ⟨h1, h2⟩
        rcases List.mem_cons.mp h2 with rfl | h2
        · exact absurd hk h1
        · exact ⟨h1, h2⟩
    · rw [if_neg hk]
      constructor
      · intro h
        rcases List.mem_cons.mp h with rfl | h
        · exact ⟨hk, List.mem_cons_self _ _⟩
        · rcases ih.mp h with ⟨h1, h2⟩
          exact ⟨fun hx => h1 (List.mem_cons_of_mem _ hx), List.mem_cons_of_mem a h2⟩
      · rintro ⟨h1, h2⟩
        rcases List.mem_cons.mp h2 with rfl | h2
        · exact List.mem_cons_self _ _
        · by_cases hxa : x = a
          · subst hxa; exact List.mem_cons_self _ _
          · exact List.mem_cons_of_mem a (ih.mpr ⟨by simp [hxa, h1], h2⟩)

theorem nodup_dedupId {α : Type} [DecidableEq α] :
    ∀ (seen l : List α), (dedupKeyAux id seen l).Nodup := by
  intro seen l
  induction l generalizing seen with
  | nil => exact List.Pairwise.nil
  | cons a as ih =>
    rw [dedupKeyAux]
    by_cases hk : (id a : α) ∈ seen
    · rw [if_pos hk]; exact ih seen
    · rw [if_neg hk]
      refine List.Pairwise.cons ?_ (ih (id a :: seen))
      intro x hx
      have := (mem_dedupId.mp hx).1
      intro hxa
      exact this (by simp [hxa])

theorem dedupId_eq_nil {α : Type} [DecidableEq α] :
    ∀ (seen l : List α), (∀ a ∈ l, a ∈ seen) → dedupKeyAux id seen l = [] := by
  intro seen l
  induction l with
  | nil => intro _; rfl
  | cons a as ih =>
    intro h
    rw [dedupKeyAux, if_pos (show (id a : α) ∈ seen from h a (List.mem_cons_self a as))]
    exact ih (fun x hx => h x (List.mem_cons_of_mem a hx))

theorem dedupId_append {α : Type} [DecidableEq α] :
    ∀ (seen l1 l2 : List α), (∀ a ∈ l2, a ∈ seen ∨ a ∈ l1) →
      dedupKeyAux id seen (l1 ++ l2) = dedupKeyAux id seen l1 := by
  intro seen l1
  induction l1 generalizing seen with
  | nil =>
    intro l2 h
    rw [List.nil_append, dedupKeyAux]
    exact dedupId_eq_nil seen l2 (fun a ha => (h a ha).resolve_right (by simp))
  | cons b bs ih =>
    intro l2 h
    rw [List.cons_append, dedupKeyAux, dedupKeyAux]
    by_cases hk : (id b : α) ∈ seen
    · rw [if_pos hk, if_pos hk]
      refine ih seen l2 (fun a ha => ?_)
      rcases h a ha with ha' | ha'
      · exact Or.inl ha'
      · rcases List.mem_cons.mp ha' with rfl | ha'
        · exact Or.inl hk
        · exact Or.inr ha'
    · rw [if_neg hk, if_neg hk]
      refine congrArg (b :: ·) (ih (id b :: seen) l2 (fun a ha => ?_))
      rcases h a ha with ha' | ha'
      · exact Or.inl (List.mem_cons_of_mem _ ha')
      · rcases List.mem_cons.mp ha' with rfl | ha'
        · exact Or.inl (by simp)
        · exact Or.inr ha'

theorem dedupId_eq_self {α : Type} [DecidableEq α] :
    ∀ (seen l : List α), (∀ a ∈ l, a ∉ seen) → l.Nodup → dedupKeyAux id seen l = l := by
  intro seen l
  induction l generalizing seen with
  | nil => intro _ _; rfl
  | cons a as ih =>
    intro h hnd
    rw [dedupKeyAux, if_neg (show (id a : α) ∉ seen from h a (List.mem_cons_self a as))]
    rw [List.nodup_cons] at hnd
    refine congrArg (a :: ·) (ih (id a :: seen) (fun x hx => ?_) hnd.2)
    intro hmem
    rcases List.mem_cons.mp hmem with rfl | hmem
    · exact hnd.1 hx
    · exact h x (List.mem_cons_of_mem a hx) hmem

/-! First-match and value-replacement lemmas. -/

theorem find?_first {α : Type} (p : α → Bool) :
    ∀ (pre : List α) (c : α) (post : List α),
      (∀ x ∈ pre, p x = false) → p c = true → (pre ++ c :: post).find? p = some c := by
  intro pre
  induction pre with
  | nil =>
    intro c post _ hc
    rw [List.nil_append, List.find?_cons_of_pos _ hc]
  | cons a as ih =>
    intro c post hpre hc
    rw [List.cons_append,
      List.find?_cons_of_neg _ (by simp [hpre a (List.mem_cons_self a as)])]
    exact ih c post (fun x hx => hpre x (List.mem_cons_of_mem a hx)) hc

theorem sentinel_not_marker : sentinel ∉ markerValues := by decide

theorem replaceVal_eq_self {s : String} (h : s ∉ markerValues) : replaceVal s = s :=
  if_neg h

theorem replaceVal_idem (s : String) : replaceVal (replaceVal s) = replaceVal s := by
  by_cases h : s ∈ markerValues
  · rw [show replaceVal s = sentinel from if_pos h,
      replaceVal_eq_self sentinel_not_marker]
  · rw [replaceVal_eq_self h]
    exact replaceVal_eq_self h

theorem replaceVal_not_marker (s : String) : replaceVal s ∉ markerValues := by
  by_cases h : s ∈ markerValues
  · rw [show replaceVal s = sentinel from if_pos h]
    exact sentinel_not_marker
  · rw [replaceVal_eq_self h]
    exact h

end Lemmas

/-- C1 counterexample: the claim that deduplication is disabled for
exactly two publisher variants is false on the code; counting the
adapters that pass remove_duplicates=False to process_columns gives a
number different from two (adapters 4, 6 and 7 all disable it). -/
theorem dedup_disabled_not_two :
    ¬ (allPublishers.filter (fun p => !removeDuplicatesPolicy p)).length = 2 := by decide

/-- C1 (amended): deduplication is explicitly disabled for exactly three
publisher variants (adapters 4, 6 and 7), not two; for the default policy
the dedup stage keeps, of all rows sharing a Transaction ID value, exactly
the first row of the descending Read-Date sort (the filter of the deduped
sorted list at any Transaction ID is exactly the first matching sorted
row), and with deduplication disabled process_columns keeps every row. -/
theorem dedup_policy_characterization :
    (allPublishers.filter (fun p => !removeDuplicatesPolicy p)).length = 3
    ∧ (∀ rows : List Row,
        process_columns true rows
          = (dedupKeyAux Row.transactionId [] (sortRows rows)).map replaceRow)
    ∧ (∀ (rows : List Row) (t : String),
        (dedupKeyAux Row.transactionId [] (sortRows rows)).filter
            (fun r => r.transactionId == t)
          = ((sortRows rows).find? (fun r => r.transactionId == t)).toList)
    ∧ (∀ rows : List Row, (process_columns false rows).length = rows.length) := by
  refine ⟨by decide, fun rows => rfl, fun rows t => ?_, fun rows => ?_⟩
  · rw [dedupKeyAux_filter Row.transactionId t [] (sortRows rows), if_neg (by simp)]
  · rw [process_columns]
    simp [length_sortRows]

/-- C2 counterexample: a date string matching no adapter grammar does not
make the adapter raise; adapter 4's converter emits the malformed value
unchanged, and adapter 1's converter likewise silently emits the first
word of a two-word non-date string. -/
theorem malformed_date_passes_silently :
    convert_date_example_publisher_4 "not a date" = "not a date"
    ∧ convert_date_example_publisher_1 "banana split" = some "banana" := ⟨rfl, rfl⟩

/-- C2 (amended): format mismatches are not uniformly loud failures.
Adapter 1's converter raises exactly when the string does not split on
single spaces into two parts whose first part has at least three
characters; any string of that shape is accepted and rearranged without
validating its content.  Adapter 4's converter is total: every string,
well-formed or not, is emitted with slashes replaced by dashes. -/
theorem date_conversion_characterization (s : String) :
    (convert_date_example_publisher_1 s = none ↔
      ¬ ∃ d r, splitSpaces s.data = [d, r] ∧ 3 ≤ d.length)
    ∧ convert_date_example_publisher_4 s = slashToDash s := by
  refine ⟨?_, rfl⟩
  rcases h : splitSpaces s.data with _ | ⟨d, _ | ⟨r, _ | ⟨x, xs⟩⟩⟩
  · simp [convert_date_example_publisher_1, h]
  · simp [convert_date_example_publisher_1, h]
  · rcases hg : d.get? 2 with _ | c
    · have hlen := List.get?_eq_none.mp hg
      simp only [convert_date_example_publisher_1, h, hg]
      constructor
      · intro _ hex
        rcases hex with ⟨d', r', hdr, hlen'⟩
        have hd : d = d' := (List.cons.injEq _ _ _ _ ▸ congrArg id hdr).1
        subst hd
        omega
      · intro _
        trivial
    · simp only [convert_date_example_publisher_1, h, hg]
      have hlen : 3 ≤ d.length := by
        by_contra hc
        have hnone : d.get? 2 = none := List.get?_eq_none.mpr (by omega)
        rw [hnone] at hg
        exact Option.noConfusion hg
      constructor
      · intro hfalse
        exact absurd hfalse (by simp)
      · intro hex
        exact absurd ⟨d, r, rfl, hlen⟩ hex
  · simp [convert_date_example_publisher_1, h]

/-- C2 witness: the characterization applied to a well-formed adapter-4
date evaluates to the expected converted value. -/
theorem date_conversion_characterization_witness :
    convert_date_example_publisher_4 "2024/03/07" = "2024-03-07" := by
  rw [(date_conversion_characterization "2024/03/07").2]
  rfl

/-- C4 counterexample: a firm matching a client-master entry only up to
letter case, with non-sentinel master City and Country, is left completely
unchanged by the resolver: the match in the code is case-sensitive, so the
claimed case-insensitive override does not happen. -/
theorem city_country_match_not_case_insensitive :
    upperStr exUpperClient.client = upperStr exAcmeRow.firmName
    ∧ exUpperClient.city ≠ sentinel
    ∧ exUpperClient.country ≠ sentinel
    ∧ exUpperClient.city ≠ exAcmeRow.city
    ∧ exUpperClient.country ≠ exAcmeRow.country
    ∧ get_city_and_country exAcmeRow [exUpperClient] = exAcmeRow := by decide

/-- C4 (amended): the city/country resolver matches Firm Name against the
client master by exact case-sensitive comparison (unlike the entity
resolver): when no entry's name equals the row's Firm Name exactly the row
is unchanged, and when the first exact match is found its non-sentinel
City and Country values replace the row's while sentinel master values
leave the corresponding row field unchanged. -/
theorem get_city_and_country_characterization (row : Row) (clients : List ClientEntry) :
    ((∀ c ∈ clients, c.client ≠ row.firmName) → get_city_and_country row clients = row)
    ∧ (∀ pre c post, clients = pre ++ c :: post →
        (∀ x ∈ pre, x.client ≠ row.firmName) → c.client = row.firmName →
        get_city_and_country row clients =
          { row with
              city := if c.city = sentinel then row.city else c.city,
              country := if c.country = sentinel then row.country else c.country }) := by
  constructor
  · intro hnone
    rw [get_city_and_country,
      List.find?_eq_none.mpr (fun c hc => by simp [hnone c hc])]
  · intro pre c post hts hpre hc
    subst hts
    rw [get_city_and_country,
      find?_first _ pre c post (fun x hx => by simp [hpre x hx]) (by simp [hc])]
    by_cases h1 : c.city = sentinel <;> by_cases h2 : c.country = sentinel <;>
      simp [h1, h2]

/-- C4 witness: the amended characterization applied to an exactly
matching client entry overrides both City and Country. -/
theorem get_city_and_country_characterization_witness :
    get_city_and_country exAcmeRow [exExactClient] = { exAcmeRow with city := "Tokyo", country := "Japan" } := by
  have h := (get_city_and_country_characterization exAcmeRow [exExactClient]).2
    [] exExactClient [] rfl (by simp) rfl
  rw [h, if_neg (by decide), if_neg (by decide)]
  rfl

/-- C8: the entity resolver is total (it returns instead of raising): with
no case-insensitive match of the firm name in the client master it returns
the sentinel Investor Type, the sentinel Investor Style and a false
known-client flag; with a match it returns the first matching entry's
Investor Type and Investor Style and a true flag. -/
theorem get_client_info_characterization (firmName : String) (clients : List ClientEntry) :
    ((∀ c ∈ clients, upperStr c.client ≠ upperStr firmName) →
        get_client_info firmName clients = (sentinel, sentinel, false))
    ∧ (∀ pre c post, clients = pre ++ c :: post →
        (∀ x ∈ pre, upperStr x.client ≠ upperStr firmName) →
        upperStr c.client = upperStr firmName →
        get_client_info firmName clients = (c.investorType, c.investorStyle, true)) := by
  constructor
  · intro hnone
    rw [get_client_info,
      List.find?_eq_none.mpr (fun c hc => by simp [hnone c hc])]
  · intro pre c post hts hpre hc
    subst hts
    rw [get_client_info,
      find?_first _ pre c post (fun x hx => by simp [hpre x hx]) (by simp [hc])]

/-- C8 witness: a firm absent from the client master yields the sentinels
and a false flag. -/
theorem get_client_info_characterization_witness :
    get_client_info "Acme Corp" [exOtherClient] = (sentinel, sentinel, false) :=
  (get_client_info_characterization "Acme Corp" [exOtherClient]).1 (by decide)

/-- C9: merging a run's missing-client delta into an existing ledger has
set-union semantics: a row is in the merged ledger exactly when it is in
the old ledger or in the delta, the merged ledger contains no duplicate
row whenever a merge actually happened, and merging a delta whose rows all
already appear in a duplicate-free ledger returns that ledger unchanged. -/
theorem save_missing_clients_set_union (existing df : List TRow) :
    (∀ r, r ∈ save_missing_clients existing df ↔
        r ∈ existing ∨ r ∈ df.filter (fun x => x.inClientMaster == false))
    ∧ (df.filter (fun x => x.inClientMaster == false) ≠ [] →
        (save_missing_clients existing df).Nodup)
    ∧ ((∀ r ∈ df.filter (fun x => x.inClientMaster == false), r ∈ existing) →
        existing.Nodup → save_missing_clients existing df = existing) := by
  rw [save_missing_clients]
  by_cases hnew : (df.filter (fun x => x.inClientMaster == false)).isEmpty
  · rw [if_pos hnew]
    rw [List.isEmpty_iff] at hnew
    refine ⟨fun r => ?_, fun hne => absurd hnew hne, fun _ _ => rfl⟩
    rw [hnew]
    simp
  · rw [if_neg hnew]
    refine ⟨fun r => ?_, fun _ => nodup_dedupId _ _, fun hsub hnd => ?_⟩
    · rw [drop_duplicates, mem_dedupId]
      simp [List.mem_append]
    · rw [drop_duplicates,
        dedupId_append [] existing _ (fun a ha => Or.inr (hsub a ha)),
        dedupId_eq_self [] existing (fun a _ => by simp) hnd]

/-- C9 witness: merging a delta containing Acme into a ledger already
holding Acme and Beta returns the ledger unchanged, with no duplicate. -/
theorem save_missing_clients_set_union_witness :
    save_missing_clients [exAcmeMissing, exBetaMissing] [exAcmeMissing]
      = [exAcmeMissing, exBetaMissing] :=
  (save_missing_clients_set_union [exAcmeMissing, exBetaMissing] [exAcmeMissing]).2.2
    (by decide) (by decide)

/-- C3 counterexample: a row whose resolved Title does have a post-date
entry is nevertheless excluded by the Post-Date stage, because dropna
removes any row with a missing value in any column (here Email); this
contradicts the claim that a row is excluded if and only if its resolved
Title has no post-date entry. -/
theorem row_with_post_date_still_dropped :
    lookupDict exTitles exNoEmailRow.title = some "2024-02-01"
    ∧ post_date_stage exTitles [exNoEmailRow] = [] := ⟨rfl, rfl⟩

/-- C3 (amended): get_post_date overwrites every row's Post Date with the
lookup of its resolved Title, and the stage keeps a row if and only if the
overwritten row has no missing value in any column; a Post-Date lookup
miss therefore excludes the row, but a missing value in any other field
excludes it as well. -/
theorem post_date_stage_characterization (titles : List (String × String))
    (rows : List TRow) (r : TRow) (hr : r ∈ rows) :
    get_post_date titles rows = rows.map (setPostDate titles)
    ∧ (setPostDate titles r ∈ post_date_stage titles rows ↔
        rowComplete (setPostDate titles r) = true)
    ∧ (lookupDict titles r.title = none →
        setPostDate titles r ∉ post_date_stage titles rows) := by
  have hmem : setPostDate titles r ∈ get_post_date titles rows :=
    List.mem_map_of_mem (setPostDate titles) hr
  refine ⟨rfl, ?_, ?_⟩
  · constructor
    · intro h
      exact (List.mem_filter.mp h).2
    · intro h
      exact List.mem_filter.mpr ⟨hmem, h⟩
  · intro hmiss h
    have hc := (List.mem_filter.mp h).2
    rw [rowComplete] at hc
    simp only [setPostDate, hmiss] at hc
    simp at hc

/-- C3 witness: the characterization applied to a fully populated row
whose Title is in the table shows the row surviving the stage. -/
theorem post_date_stage_characterization_witness :
    setPostDate exTitles exFullRow ∈ post_date_stage exTitles [exFullRow] := by
  have h := post_date_stage_characterization exTitles [exFullRow] exFullRow
    (List.mem_singleton.mpr rfl)
  exact h.2.1.mpr (by decide)

/-- C6: title resolution is first-match and order-preserving.  When some
prefix of the loaded title master contains no Title substring match and
the next entry matches, that entry's Title is returned; when no Title
matches at all the same first-match rule applies to the space-stripped
Content fallback; and when neither key matches any entry the original
report title is returned unchanged. -/
theorem add_shortened_title_characterization (rt : String) (ts : List TitleEntry) :
    (∀ pre e post, ts = pre ++ e :: post → (∀ x ∈ pre, titleMatch rt x = false) →
        titleMatch rt e = true → add_shortened_title rt ts = e.title)
    ∧ ((∀ x ∈ ts, titleMatch rt x = false) →
        ∀ pre e post, ts = pre ++ e :: post → (∀ x ∈ pre, contentMatch rt x = false) →
          contentMatch rt e = true → add_shortened_title rt ts = e.title)
    ∧ ((∀ x ∈ ts, titleMatch rt x = false) → (∀ x ∈ ts, contentMatch rt x = false) →
        add_shortened_title rt ts = rt) := by
  refine ⟨?_, ?_, ?_⟩
  · intro pre e post hts hpre he
    subst hts
    rw [add_shortened_title, find?_first (titleMatch rt) pre e post hpre he]
  · intro hnone pre e post hts hpre he
    subst hts
    rw [add_shortened_title,
      List.find?_eq_none.mpr (fun x hx => by simp [hnone x hx]),
      find?_first (contentMatch rt) pre e post hpre he]
  · intro h1 h2
    rw [add_shortened_title,
      List.find?_eq_none.mpr (fun x hx => by simp [h1 x hx]),
      List.find?_eq_none.mpr (fun x hx => by simp [h2 x hx])]

/-- C6 witness: a report title containing both Q2 Results and Q2 Results
Update as substrings resolves to the first-listed master entry. -/
theorem add_shortened_title_characterization_witness :
    add_shortened_title "Flash: Q2 Results Update (1234)" [exShortEntry, exLongEntry]
      = "Q2 Results" :=
  (add_shortened_title_characterization "Flash: Q2 Results Update (1234)"
    [exShortEntry, exLongEntry]).1 [] exShortEntry [exLongEntry] rfl
    (by intro x hx; exact absurd hx (List.not_mem_nil x)) (by decide)

/-- Every row of a canonicalized batch has as Firm Name the
marker-replacement of the Firm Name of some input row. -/
theorem firm_of_mem_canonicalize {a2 cm ct : List (String × String)} {flag : Bool}
    {rows : List Row} {r : Row} (h : r ∈ canonicalize a2 cm ct flag rows) :
    ∃ r0 ∈ rows, r.firmName = replaceVal r0.firmName := by
  simp only [canonicalize, map_and_fillna_city, map_and_fillna_country, process_columns] at h
  rcases List.mem_map.mp h with ⟨r1, h1, rfl⟩
  rcases List.mem_map.mp h1 with ⟨r2, h2, rfl⟩
  rcases List.mem_map.mp h2 with ⟨r3, h3, rfl⟩
  refine ⟨r3, ?_, rfl⟩
  cases flag with
  | true => exact mem_sortRows.mp (mem_of_mem_dedupKeyAux (by simpa using h3))
  | false => exact mem_sortRows.mp (by simpa using h3)

/-- C7: the adapter-4 scenario row for the undisclosed firm is excluded
from the adapter's output, and for every input batch no adapter-4 output
row carries a Firm Name containing the undisclosed-firm marker or equal to
any raw marker value (markers having been replaced by the sentinel). -/
theorem disclosure_filter_holds (a2 cm ct : List (String × String)) (rows : List Raw4) :
    clean_example_publisher_4 a2 cm ct
        [{ readDate := "2024/03/07", firmName := "Non-Disclosed Company Name",
           postDate := "2024/03/01", reportTitle := "X" }] = []
    ∧ ∀ r ∈ clean_example_publisher_4 a2 cm ct rows,
        hasSub ndMarker (lowerStr r.firmName) = false ∧ r.firmName ∉ markerValues := by
  constructor
  · rfl
  · intro r hr
    simp only [clean_example_publisher_4] at hr
    rcases firm_of_mem_canonicalize hr with ⟨r0, h0, hfirm⟩
    rcases List.mem_map.mp h0 with ⟨raw, hraw, rfl⟩
    have hnd : hasSub ndMarker (lowerStr raw.firmName) = false := by
      have := (List.mem_filter.mp hraw).2
      simpa using this
    rw [hfirm]
    by_cases hm : raw.firmName ∈ markerValues
    · rw [show replaceVal raw.firmName = sentinel from if_pos hm]
      exact ⟨by decide, sentinel_not_marker⟩
    · rw [replaceVal_eq_self hm]
      exact ⟨hnd, hm⟩

/-- C7 witness: the disclosed example row survives adapter 4 and its Firm
Name carries neither the undisclosed marker nor a raw marker value. -/
theorem disclosure_filter_holds_witness :
    hasSub ndMarker (lowerStr exDisclosedOut.firmName) = false
    ∧ exDisclosedOut.firmName ∉ markerValues :=
  (disclosure_filter_holds [] [] [] [exDisclosedRaw]).2 exDisclosedOut (by decide)

/-- C10: whenever the publisher-8 duration filters succeed, a row is kept
exactly when it came from the input, its Event Type is OPEN, and its Open
duration parses to a decimal number of milliseconds strictly greater than
3000 (the parsed value n over ten to the k exceeds 3000 as a rational). -/
theorem clean8_keeps_only_long_opens (rows outRows : List Raw8)
    (h : clean_example_publisher_8_filter rows = some outRows) :
    ∀ r, r ∈ outRows ↔ r ∈ rows ∧ r.eventType = "OPEN"
        ∧ ∃ v : Int × Nat, pyFloat r.openDurationMs = some (some v)
            ∧ (3000 : ℚ) < decimalRat v := by
  have hrat : ∀ v : Int × Nat, ((3000 : ℚ) < decimalRat v ↔ (3000 * 10 ^ v.2 : Int) < v.1) := by
    intro v
    rw [decimalRat, lt_div_iff₀ (by positivity)]
    constructor
    · intro hv
      exact_mod_cast hv
    · intro hv
      exact_mod_cast hv
  simp only [clean_example_publisher_8_filter] at h
  by_cases hall : (rows.filter (fun r => r.eventType == "OPEN")).all
      (fun r => (pyFloat r.openDurationMs).isSome)
  · rw [if_pos hall, Option.some.injEq] at h
    subst h
    intro r
    rw [List.mem_filter, List.mem_filter]
    constructor
    · rintro ⟨⟨hmem, hopen⟩, hdur⟩
      refine ⟨hmem, by simpa using hopen, ?_⟩
      rcases hq : pyFloat r.openDurationMs with _ | v
      · rw [hq] at hdur
        simp at hdur
      · rcases v with _ | v
        · rw [hq] at hdur
          simp at hdur
        · rw [hq] at hdur
          refine ⟨v, rfl, (hrat v).mpr ?_⟩
          simpa using hdur
    · rintro ⟨hmem, hopen, v, hq, hlt⟩
      refine ⟨⟨hmem, by simp [hopen]⟩, ?_⟩
      rw [hq]
      simpa using (hrat v).mp hlt
  · rw [if_neg hall] at h
    exact Option.noConfusion h

/-- C10 witness: the long OPEN row is kept by the filter and its duration
parses to a value exceeding 3000 milliseconds. -/
theorem clean8_keeps_only_long_opens_witness :
    ∃ v : Int × Nat, pyFloat exOpenLong.openDurationMs = some (some v)
      ∧ (3000 : ℚ) < decimalRat v := by
  have h := clean8_keeps_only_long_opens [exOpenLong, exOpenShort, exSentRow] [exOpenLong]
    (by decide) exOpenLong
  exact (h.mp (List.mem_singleton.mpr rfl)).2.2

/-- With deduplication disabled, canonicalization is the descending sort
followed by the per-row value canonicalization canonRow. -/
theorem canonicalize_false_eq_map (a2 cm ct : List (String × String)) (rows : List Row) :
    canonicalize a2 cm ct false rows
      = (sortRows rows).map (canonRow a2 cm ct) := by
  simp only [canonicalize, map_and_fillna_city, map_and_fillna_country, process_columns,
    Bool.false_eq_true, if_false, List.map_map]
  rfl

theorem canonRow_readDate (a2 cm ct : List (String × String)) (r : Row) :
    (canonRow a2 cm ct r).readDate = replaceVal r.readDate := rfl

/-- The per-row canonicalization is idempotent on a row whose country and
city canonical values are fixed points of marker replacement and of their
own canonicalization. -/
theorem canonRow_idem {a2 cm ct : List (String × String)} {r : Row}
    (hc1 : replaceVal (countryCanon a2 cm (replaceVal r.country))
      = countryCanon a2 cm (replaceVal r.country))
    (hc2 : countryCanon a2 cm (countryCanon a2 cm (replaceVal r.country))
      = countryCanon a2 cm (replaceVal r.country))
    (hy1 : replaceVal (cityCanon ct (replaceVal r.city)) = cityCanon ct (replaceVal r.city))
    (hy2 : cityCanon ct (cityCanon ct (replaceVal r.city)) = cityCanon ct (replaceVal r.city)) :
    canonRow a2 cm ct (canonRow a2 cm ct r) = canonRow a2 cm ct r := by
  simp only [canonRow, replaceRow]
  rw [Row.mk.injEq]
  refine ⟨replaceVal_idem _, replaceVal_idem _, replaceVal_idem _, replaceVal_idem _,
    replaceVal_idem _, ?_, ?_, replaceVal_idem _, replaceVal_idem _, replaceVal_idem _⟩
  · rw [hy1, hy2]
  · rw [hc1, hc2]

/-- C5 counterexample: canonicalization is not idempotent.  Two rows with
the distinct marker Transaction IDs nan and asterisks both survive
deduplication, after which both IDs are replaced by the sentinel; applying
the same canonicalization to that output merges the two rows, so the
second application differs from the first. -/
theorem canonicalize_not_idempotent :
    canonicalize [] [] [] true (canonicalize [] [] [] true [exNanRow, exStarRow])
      ≠ canonicalize [] [] [] true [exNanRow, exStarRow] := by decide

/-- C5 (amended): with deduplication disabled (as for adapter variants 4,
6 and 7), the shared canonicalization is idempotent on every batch whose
rows have non-marker Read Dates and whose country and city values
canonicalize to fixed points of marker replacement and of the country and
city canonicalization itself; for default-policy adapters a second
application can instead drop rows whose distinct raw Transaction IDs were
both replaced by the sentinel. -/
theorem canonicalize_no_dedup_idempotent
    (alpha2 customCountry customCity : List (String × String)) (rows : List Row)
    (h1 : ∀ r ∈ rows, r.readDate ∉ markerValues)
    (h2 : ∀ r ∈ rows, replaceVal (countryCanon alpha2 customCountry (replaceVal r.country))
            = countryCanon alpha2 customCountry (replaceVal r.country))
    (h3 : ∀ r ∈ rows, countryCanon alpha2 customCountry
              (countryCanon alpha2 customCountry (replaceVal r.country))
            = countryCanon alpha2 customCountry (replaceVal r.country))
    (h4 : ∀ r ∈ rows, replaceVal (cityCanon customCity (replaceVal r.city))
            = cityCanon customCity (replaceVal r.city))
    (h5 : ∀ r ∈ rows, cityCanon customCity (cityCanon customCity (replaceVal r.city))
            = cityCanon customCity (replaceVal r.city)) :
    canonicalize alpha2 customCountry customCity false
        (canonicalize alpha2 customCountry customCity false rows)
      = canonicalize alpha2 customCountry customCity false rows := by
  rw [canonicalize_false_eq_map, canonicalize_false_eq_map]
  have hsorted : sortedDesc ((sortRows rows).map (canonRow alpha2 customCountry customCity)) := by
    rw [sortedDesc, List.pairwise_map]
    refine List.Pairwise.imp_of_mem ?_ (sortedDesc_sortRows rows)
    intro a b ha hb hab
    rw [canonRow_readDate, canonRow_readDate,
      replaceVal_eq_self (h1 a (mem_sortRows.mp ha)),
      replaceVal_eq_self (h1 b (mem_sortRows.mp hb))]
    exact hab
  rw [sortRows_eq_self hsorted, List.map_map]
  refine List.map_congr_left ?_
  intro r hr
  have hr' : r ∈ rows := mem_sortRows.mp hr
  exact canonRow_idem (h2 r hr') (h3 r hr') (h4 r hr') (h5 r hr')

/-- C5 witness: with an alpha-2 table mapping JP to Japan and empty
override tables, a batch holding one well-behaved row satisfies all the
fixed-point hypotheses and canonicalization with deduplication disabled is
idempotent on it. -/
theorem canonicalize_no_dedup_idempotent_witness :
    canonicalize [("JP", "Japan")] [] [] false
        (canonicalize [("JP", "Japan")] [] [] false [exJpRow])
      = canonicalize [("JP", "Japan")] [] [] false [exJpRow] :=
  canonicalize_no_dedup_idempotent [("JP", "Japan")] [] [] [exJpRow]
    (by decide) (by decide) (by decide) (by decide) (by decide)

end DataScrubber
